import Mathlib

/-!
Verification of the DMET active-space selector `dmet_cas` from
`examples/1-advanced/018-dmrg_casscf_for_feporph.py`, and of the
surrounding script's module-level name environment.

Two embeddings of the same routine are developed, both translated
directly from the source:

* `PyModel`: an untyped embedding.  A matrix is a list of columns
  (each column a list of rationals), numpy's `dot`, `hstack`,
  transpose, fancy indexing and Python's slice semantics (including
  negative bounds) are modelled exactly, and the module-level global
  `mol` is passed explicitly as the global environment the function
  reads at call time.  `scipy.linalg.eigh` is an external collaborator
  and enters as a function parameter.

* `MatModel`: a typed embedding over Mathlib's `Matrix (Fin n)`
  types, used for the algebraic (orthonormality) property, valid in
  the regime where all shape preconditions hold.

* `Script`: the sequence of module-level statements of the script with
  the names each statement binds and references, for the
  name-resolution claims.
-/

namespace PyModel

/-- A column vector: list of rational entries. -/
abbrev Vec := List ℚ

/-- A matrix, stored as its list of columns (numpy arrays are modelled
column-wise; the column count is `length`, the row count is the length
of each column). -/
abbrev Mat := List Vec

/-- Number of rows of a matrix (length of its first column). -/
def rowsOf (A : Mat) : ℕ := (A.headD []).length

/-- The zero vector of length `n`. -/
def zeroVec (n : ℕ) : Vec := List.replicate n 0

/-- Entrywise vector sum (numpy `+` on equal-length 1d arrays). -/
def addVec (u v : Vec) : Vec := List.zipWith (· + ·) u v

/-- Scalar multiple of a vector. -/
def smulVec (c : ℚ) (v : Vec) : Vec := v.map (fun x => c * x)

/-- Linear combination of the columns of `A` with coefficients `b`:
the column `A · b` of a matrix product. -/
def lincomb (A : Mat) (b : Vec) : Vec :=
  (List.zipWith smulVec b A).foldr addVec (zeroVec (rowsOf A))

/-- Matrix product `numpy.dot(A, B)` in column representation: each
column of the result is `A` applied to the corresponding column of
`B`. -/
def matmul (A B : Mat) : Mat := B.map (lincomb A)

/-- Transpose (`A.T`): the columns of the transpose are the rows of
`A`. -/
def transposeM (A : Mat) : Mat :=
  (List.range (rowsOf A)).map (fun i => A.map (fun c => c.getD i 0))

/-- Entrywise matrix sum (numpy `+`). -/
def addM (A B : Mat) : Mat := List.zipWith addVec A B

/-- Entrywise negation (numpy unary `-`). -/
def negM (A : Mat) : Mat := A.map (fun c => c.map (fun x => -x))

/-- Column selection `A[:, is]` (numpy fancy indexing by a list of
column indices). -/
def selCols (A : Mat) (idxs : List ℕ) : Mat := idxs.map (fun i => A.getD i [])

/-- Row selection `A[is]` in column representation: restrict every
column to the chosen row indices. -/
def selRowsM (A : Mat) (idxs : List ℕ) : Mat :=
  A.map (fun c => idxs.map (fun i => c.getD i 0))

/-- The square submatrix `A[is][:, is]` appearing as
`dm[implst][:,implst]` in the source. -/
def subSq (A : Mat) (idxs : List ℕ) : Mat := selRowsM (selCols A idxs) idxs

/-- numpy broadcasting `A * e` of a 2d array against a 1d array of
per-column factors (`hf_orb*mc._scf.mo_energy` in the source): column
`j` is scaled by `e j`. -/
def scaleCols (e : Vec) (A : Mat) : Mat := List.zipWith smulVec e A

/-- Normalization of a Python slice bound for a sequence of length
`n`: a negative bound counts from the end (clamped below by `0`), a
non-negative bound is clamped above by `n`. -/
def pyIdx (n : ℕ) (a : ℤ) : ℕ :=
  if a < 0 then ((n : ℤ) + a).toNat else min a.toNat n

/-- Python column slice `A[:, a:b]`. -/
def pySlice (A : Mat) (a b : ℤ) : Mat :=
  (A.drop (pyIdx A.length a)).take (pyIdx A.length b - pyIdx A.length a)

/-- Python column slice `A[:, a:]`. -/
def pySliceFrom (A : Mat) (a : ℤ) : Mat := A.drop (pyIdx A.length a)

/-- The identity matrix of size `k` (used by the concrete eigensolver
instantiations in witnesses). -/
def idMat (k : ℕ) : Mat :=
  (List.range k).map (fun j => (List.range k).map (fun i => if i = j then (1 : ℚ) else 0))

/-- The module-level `mol` object as read by `dmet_cas`: its AO count
`nao_nr()`, the orthogonalizing transform `lo.orth.orth_ao(mol, ...)`
and the overlap matrix `mol.intor_symmetric('cint1e_ovlp_sph')` are
functions of the molecule and are modelled as data carried by it. -/
structure MoleL where
  nao : ℕ
  orthAo : Mat
  ovlp : Mat
deriving DecidableEq

/-- The fields of the `mc` object that `dmet_cas` reads: `mc.mol`,
`mc.ncore`, `mc.ncas`, `mc._scf.mo_coeff`, `mc._scf.mo_energy`. -/
structure MCL where
  mol : MoleL
  ncore : ℕ
  ncas : ℕ
  scfMoCoeff : Mat
  scfMoEnergy : Vec
deriving DecidableEq

/-!
The body of `dmet_cas` (source lines 35-87), one definition per local
variable of the source, each parameterized by the call context:
`eighA` models `scipy.linalg.eigh` (returning the pair eigenvalues /
eigenvector matrix), `gmol` is the module-level global `mol` at call
time, `mc`, `dm` and `implst` are the function's arguments.  Note
that `nao` is taken from `mc.mol` (line 37) while `corth` and `s`
come from the module-level global `mol` (lines 43-44).
-/

/-- Line 42: `nbath = ncas - nimp` (a Python int, so it may be
negative). -/
def nbath (mc : MCL) (implst : List ℕ) : ℤ :=
  (mc.ncas : ℤ) - (implst.length : ℤ)

/-- Line 45: `cinv = numpy.dot(corth.T, s)` with `corth`, `s` read
from the global `mol`. -/
def cinv (gmol : MoleL) : Mat :=
  matmul (transposeM gmol.orthAo) gmol.ovlp

/-- Line 49: `dm = reduce(numpy.dot, (cinv, dm[0]+dm[1], cinv.T))`,
the spin-summed density matrix in the orthogonal basis. -/
def dmOrth (gmol : MoleL) (dm : Mat × Mat) : Mat :=
  matmul (matmul (cinv gmol) (addM dm.1 dm.2)) (transposeM (cinv gmol))

/-- Line 57: `notimp = [i for i in range(nao) if i not in implst]`
with `nao = mc.mol.nao_nr()`. -/
def notimp (mc : MCL) (implst : List ℕ) : List ℕ :=
  (List.range mc.mol.nao).filter (fun i => ¬ i ∈ implst)

/-- Line 58: `occi, ui = scipy.linalg.eigh(-dm[implst][:,implst])`. -/
def eighImp (eighA : Mat → Vec × Mat) (gmol : MoleL) (dm : Mat × Mat)
    (implst : List ℕ) : Vec × Mat :=
  eighA (negM (subSq (dmOrth gmol dm) implst))

/-- Line 59: `occb, ub = scipy.linalg.eigh(-dm[notimp][:,notimp])`. -/
def eighBath (eighA : Mat → Vec × Mat) (gmol : MoleL) (mc : MCL) (dm : Mat × Mat)
    (implst : List ℕ) : Vec × Mat :=
  eighA (negM (subSq (dmOrth gmol dm) (notimp mc implst)))

/-- Line 60: `bathorb = numpy.dot(corth[:,notimp], ub)`. -/
def bathorb (eighA : Mat → Vec × Mat) (gmol : MoleL) (mc : MCL) (dm : Mat × Mat)
    (implst : List ℕ) : Mat :=
  matmul (selCols gmol.orthAo (notimp mc implst)) (eighBath eighA gmol mc dm implst).2

/-- Line 61: `imporb = numpy.dot(corth[:,implst], ui)`. -/
def imporb (eighA : Mat → Vec × Mat) (gmol : MoleL) (dm : Mat × Mat)
    (implst : List ℕ) : Mat :=
  matmul (selCols gmol.orthAo implst) (eighImp eighA gmol dm implst).2

/-- Line 62: `mocore = bathorb[:,:ncore]`. -/
def mocore (eighA : Mat → Vec × Mat) (gmol : MoleL) (mc : MCL) (dm : Mat × Mat)
    (implst : List ℕ) : Mat :=
  pySlice (bathorb eighA gmol mc dm implst) 0 (mc.ncore : ℤ)

/-- Line 63: `mocas = numpy.hstack((imporb, bathorb[:,ncore:ncore+nbath]))`. -/
def mocas (eighA : Mat → Vec × Mat) (gmol : MoleL) (mc : MCL) (dm : Mat × Mat)
    (implst : List ℕ) : Mat :=
  imporb eighA gmol dm implst ++
    pySlice (bathorb eighA gmol mc dm implst) (mc.ncore : ℤ)
      ((mc.ncore : ℤ) + nbath mc implst)

/-- Line 64: `moext = bathorb[:,ncore+nbath:]`. -/
def moext (eighA : Mat → Vec × Mat) (gmol : MoleL) (mc : MCL) (dm : Mat × Mat)
    (implst : List ℕ) : Mat :=
  pySliceFrom (bathorb eighA gmol mc dm implst) ((mc.ncore : ℤ) + nbath mc implst)

/-- Line 71: `fock = reduce(numpy.dot, (s, hf_orb*mc._scf.mo_energy,
hf_orb.T, s))` with `s` from the global `mol` and `hf_orb`,
`mo_energy` from `mc._scf`. -/
def fock (gmol : MoleL) (mc : MCL) : Mat :=
  matmul (matmul (matmul gmol.ovlp (scaleCols mc.scfMoEnergy mc.scfMoCoeff))
    (transposeM mc.scfMoCoeff)) gmol.ovlp

/-- Lines 73-81: one canonicalization step — diagonalize
`B.T · fock · B` and rotate `B` by the eigenvectors. -/
def canon (eighA : Mat → Vec × Mat) (fk B : Mat) : Mat :=
  matmul B (eighA (matmul (matmul (transposeM B) fk) B)).2

/-- Lines 86-87: `mo_init = numpy.hstack((mocore, mocas, moext))`
after canonicalization of each block; the returned value. -/
def dmetCas (eighA : Mat → Vec × Mat) (gmol : MoleL) (mc : MCL)
    (dm : Mat × Mat) (implst : List ℕ) : Mat :=
  canon eighA (fock gmol mc) (mocore eighA gmol mc dm implst) ++
    canon eighA (fock gmol mc) (mocas eighA gmol mc dm implst) ++
      canon eighA (fock gmol mc) (moext eighA gmol mc dm implst)

/-- Concrete eigensolver used only to instantiate witnesses: returns
zero eigenvalues and the identity rotation, so it is shape-preserving
and its eigenvector matrix is orthogonal. -/
def eighTriv : Mat → Vec × Mat := fun M => (zeroVec M.length, idMat M.length)

/-- Concrete molecule-like environment on 3 atomic orbitals, used by
witnesses. -/
def gmol3 : MoleL := ⟨3, idMat 3, idMat 3⟩

/-- Concrete `mc` object over `gmol3` with `ncore = 1`, `ncas = 1`. -/
def mc3 : MCL := ⟨gmol3, 1, 1, idMat 3, zeroVec 3⟩

/-- Concrete spin density matrices on 3 orbitals. -/
def dm3 : Mat × Mat := (idMat 3, idMat 3)

/-- Concrete molecule-like environment on 4 atomic orbitals, used for
the invalid-partition scenario of the spec (`ncas = 1`,
`impurity_indices = [0, 1]`). -/
def gmol4 : MoleL := ⟨4, idMat 4, idMat 4⟩

/-- Concrete `mc` object over `gmol4` with `ncore = 1`, `ncas = 1`. -/
def mc4 : MCL := ⟨gmol4, 1, 1, idMat 4, zeroVec 4⟩

/-- Concrete spin density matrices on 4 orbitals. -/
def dm4 : Mat × Mat := (idMat 4, idMat 4)

/-- Concrete 1-orbital global environment. -/
def gmol1 : MoleL := ⟨1, [[1]], [[1]]⟩

/-- A second 1-orbital global environment differing from `gmol1` only
in the orthogonalizing transform — it models the module-level `mol`
after an in-place mutation. -/
def gmol1b : MoleL := ⟨1, [[2]], [[1]]⟩

/-- Concrete `mc` object whose `mol` field is `gmol1` (the object the
script stores into `mc` stays the same while the global mutates). -/
def mc1 : MCL := ⟨gmol1, 0, 1, [[1]], [0]⟩

/-- Concrete spin density matrices on 1 orbital. -/
def dm1 : Mat × Mat := ([[1]], [[0]])

end PyModel

namespace Script

/-- One module-level statement of the script: the global names it
binds and the global names its own expression references (argument
expressions of a call are evaluated at the call site, so a call
statement references the names appearing in it; names only used
inside a function body are resolved when that body runs and are not
listed). -/
structure Stmt where
  binds : List String
  refs : List String
deriving DecidableEq

/-- The module-level statements of
`018-dmrg_casscf_for_feporph.py`, in source order.  Imports bind the
imported module names; `import scipy.linalg` binds `scipy`. -/
def script : List Stmt := [
  ⟨["reduce"], []⟩,                                -- line 3
  ⟨["numpy"], []⟩,                                 -- line 4
  ⟨["scipy"], []⟩,                                 -- line 5
  ⟨["scf"], []⟩,                                   -- line 6
  ⟨["gto"], []⟩,                                   -- line 7
  ⟨["mcscf", "fci"], []⟩,                          -- line 8
  ⟨["dmrgscf"], []⟩,                               -- line 9
  ⟨["mrpt"], []⟩,                                  -- line 10
  ⟨[], ["dmrgscf"]⟩,                               -- line 12
  ⟨["dmet_cas"], []⟩,                              -- lines 35-87
  ⟨["mol"], ["gto"]⟩,                              -- line 98
  ⟨[], ["mol"]⟩,                                   -- line 99  (mol.atom)
  ⟨[], ["mol"]⟩,                                   -- line 138 (mol.basis)
  ⟨[], ["mol"]⟩,                                   -- line 139 (mol.verbose)
  ⟨[], ["mol"]⟩,                                   -- line 140 (mol.output)
  ⟨[], ["mol"]⟩,                                   -- line 141 (mol.spin)
  ⟨[], ["mol"]⟩,                                   -- line 142 (mol.symmetry)
  ⟨[], ["mol"]⟩,                                   -- line 143 (mol.build)
  ⟨["mf"], ["scf", "mol"]⟩,                        -- line 145
  ⟨["mf"], ["scf", "mf"]⟩,                         -- line 146
  ⟨["mc"], ["mcscf", "dmrgscf", "m"]⟩,             -- line 156
  ⟨["idx"], ["mol"]⟩,                              -- lines 157-158
  ⟨["mo"], ["dmet_cas", "mc", "mf", "idx"]⟩,       -- line 159
  ⟨[], ["mc"]⟩,                                    -- line 161
  ⟨[], ["mc", "mo"]⟩,                              -- line 162
  ⟨["e_q"], ["mc"]⟩,                               -- line 164
  ⟨["cas_q"], ["mc"]⟩,                             -- line 165
  ⟨["ept2_q"], ["mrpt", "mc"]⟩,                    -- line 170
  ⟨[], ["mol"]⟩,                                   -- line 182 (mol.spin = 2)
  ⟨["mf"], ["scf", "mol"]⟩,                        -- line 184
  ⟨["mf"], ["scf", "mf"]⟩,                         -- line 185
  ⟨["mc"], ["mcscf", "dmrgscf", "m"]⟩,             -- line 194
  ⟨["idx"], ["mol"]⟩,                              -- lines 195-196
  ⟨["mo"], ["dmet_cas", "mc", "mf", "idx3d"]⟩,     -- line 197
  ⟨[], ["mc"]⟩,                                    -- line 198
  ⟨[], ["mc", "mo"]⟩,                              -- line 199
  ⟨["mo"], ["mc"]⟩,                                -- line 200
  ⟨["e_t"], ["mc"]⟩,                               -- line 202
  ⟨["cas_t"], ["mc"]⟩,                             -- line 203
  ⟨["ept2_t"], ["mrpt", "mc"]⟩,                    -- line 208
  ⟨[], ["e_t", "e_q"]⟩,                            -- line 210
  ⟨["s"], ["reduce", "numpy", "cas_t", "mol", "cas_q"]⟩,  -- line 214
  ⟨[], ["numpy", "s"]⟩,                            -- line 215
  ⟨[], ["ept2_t", "ept2_q"]⟩,                      -- lines 217-218
  ⟨["tools"], []⟩,                                 -- line 231
  ⟨[], ["tools", "mol", "cas_t"]⟩,                 -- line 232
  ⟨[], ["tools", "mol", "cas_q"]⟩]                 -- line 233

/-- Every global name the script ever binds. -/
def boundNames : List String := (script.map Stmt.binds).flatten

/-- A statement raises a NameError under environment `env` iff it
references a name not in `env`. -/
def stmtFails (env : List String) (st : Stmt) : Bool :=
  st.refs.any (fun r => !(env.contains r))

/-- Index of the first statement to raise a NameError when the
statements run in order, each adding its bindings to the
environment. -/
def execFail : List String → List Stmt → Option ℕ
  | _, [] => none
  | env, st :: rest =>
    if stmtFails env st then some 0
    else (execFail (env ++ st.binds) rest).map (· + 1)

/-- Placeholder statement for out-of-range indexing. -/
def noStmt : Stmt := ⟨[], []⟩

end Script

namespace MatModel

open Matrix

/-- Abstract symmetric eigensolver (`scipy.linalg.eigh` as an
external collaborator): for every square matrix it returns an
eigenvector matrix of the same shape.  Properties scipy documents
(orthogonality of the eigenvector matrix) enter as hypotheses of the
theorems. -/
structure Eigh where
  vecs : ∀ (m : Type) [Fintype m] [DecidableEq m], Matrix m m ℚ → Matrix m m ℚ

/-- Line 45: `cinv = numpy.dot(corth.T, s)`. -/
def cinvM {n : ℕ} (corth s : Matrix (Fin n) (Fin n) ℚ) :
    Matrix (Fin n) (Fin n) ℚ :=
  corthᵀ * s

/-- Line 49: the spin-summed density matrix transformed to the
orthogonal basis. -/
def dmOrthM {n : ℕ} (corth s dmA dmB : Matrix (Fin n) (Fin n) ℚ) :
    Matrix (Fin n) (Fin n) ℚ :=
  cinvM corth s * (dmA + dmB) * (cinvM corth s)ᵀ

/-- Line 57: the order-preserving complement of the impurity index
list. -/
def notimpM (n : ℕ) (l : List (Fin n)) : List (Fin n) :=
  (List.finRange n).filter (fun i => ¬ i ∈ l)

/-- Line 58: eigenvector matrix of `-dm[implst][:, implst]`. -/
def uiM (E : Eigh) {n : ℕ} (corth s dmA dmB : Matrix (Fin n) (Fin n) ℚ)
    (l : List (Fin n)) : Matrix (Fin l.length) (Fin l.length) ℚ :=
  E.vecs (Fin l.length)
    (-((dmOrthM corth s dmA dmB).submatrix l.get l.get))

/-- Line 59: eigenvector matrix of `-dm[notimp][:, notimp]`. -/
def ubM (E : Eigh) {n : ℕ} (corth s dmA dmB : Matrix (Fin n) (Fin n) ℚ)
    (l : List (Fin n)) :
    Matrix (Fin (notimpM n l).length) (Fin (notimpM n l).length) ℚ :=
  E.vecs (Fin (notimpM n l).length)
    (-((dmOrthM corth s dmA dmB).submatrix (notimpM n l).get (notimpM n l).get))

/-- Line 61: `imporb = numpy.dot(corth[:, implst], ui)`. -/
def imporbM (E : Eigh) {n : ℕ} (corth s dmA dmB : Matrix (Fin n) (Fin n) ℚ)
    (l : List (Fin n)) : Matrix (Fin n) (Fin l.length) ℚ :=
  corth.submatrix id l.get * uiM E corth s dmA dmB l

/-- Line 60: `bathorb = numpy.dot(corth[:, notimp], ub)`. -/
def bathorbM (E : Eigh) {n : ℕ} (corth s dmA dmB : Matrix (Fin n) (Fin n) ℚ)
    (l : List (Fin n)) : Matrix (Fin n) (Fin (notimpM n l).length) ℚ :=
  corth.submatrix id (notimpM n l).get * ubM E corth s dmA dmB l

/-- Contiguous column slice `A[:, a:a+k]` of a matrix with `m`
columns, in the valid regime `a + k ≤ m` (entries out of range are
never read there). -/
def colSlice {n m : ℕ} (A : Matrix (Fin n) (Fin m) ℚ) (a k : ℕ) :
    Matrix (Fin n) (Fin k) ℚ :=
  Matrix.of fun i j => if h : a + (j : ℕ) < m then A i ⟨a + (j : ℕ), h⟩ else 0

/-- Line 62: `mocore = bathorb[:, :ncore]`. -/
def mocoreM (E : Eigh) {n : ℕ} (nc : ℕ)
    (corth s dmA dmB : Matrix (Fin n) (Fin n) ℚ) (l : List (Fin n)) :
    Matrix (Fin n) (Fin nc) ℚ :=
  colSlice (bathorbM E corth s dmA dmB l) 0 nc

/-- Line 63: `mocas = hstack((imporb, bathorb[:, ncore:ncore+nbath]))`
with `nbath = ncas - nimp`. -/
def mocasM (E : Eigh) {n : ℕ} (nc na : ℕ)
    (corth s dmA dmB : Matrix (Fin n) (Fin n) ℚ) (l : List (Fin n)) :
    Matrix (Fin n) (Fin l.length ⊕ Fin (na - l.length)) ℚ :=
  Matrix.fromColumns (imporbM E corth s dmA dmB l)
    (colSlice (bathorbM E corth s dmA dmB l) nc (na - l.length))

/-- Line 64: `moext = bathorb[:, ncore+nbath:]`. -/
def moextM (E : Eigh) {n : ℕ} (nc na : ℕ)
    (corth s dmA dmB : Matrix (Fin n) (Fin n) ℚ) (l : List (Fin n)) :
    Matrix (Fin n) (Fin ((notimpM n l).length - (nc + (na - l.length)))) ℚ :=
  colSlice (bathorbM E corth s dmA dmB l) (nc + (na - l.length))
    ((notimpM n l).length - (nc + (na - l.length)))

/-- Line 71: `fock = S · (hf_orb * mo_energy) · hf_orbᵀ · S`. -/
def fockM {n : ℕ} (s hfOrb : Matrix (Fin n) (Fin n) ℚ) (hfE : Fin n → ℚ) :
    Matrix (Fin n) (Fin n) ℚ :=
  s * (hfOrb * Matrix.diagonal hfE) * hfOrbᵀ * s

/-- Lines 73-81: canonicalization of a block `B` against `fk`. -/
def canonM (E : Eigh) {n : ℕ} {ι : Type} [Fintype ι] [DecidableEq ι]
    (fk : Matrix (Fin n) (Fin n) ℚ) (B : Matrix (Fin n) ι ℚ) :
    Matrix (Fin n) ι ℚ :=
  B * E.vecs ι (Bᵀ * fk * B)

/-- Lines 86-87: the returned orbital matrix, the column
concatenation of the three canonicalized blocks. -/
def moInitM (E : Eigh) {n : ℕ} (nc na : ℕ)
    (corth s dmA dmB hfOrb : Matrix (Fin n) (Fin n) ℚ) (hfE : Fin n → ℚ)
    (l : List (Fin n)) :
    Matrix (Fin n)
      (Fin nc ⊕ ((Fin l.length ⊕ Fin (na - l.length)) ⊕
        Fin ((notimpM n l).length - (nc + (na - l.length))))) ℚ :=
  Matrix.fromColumns (canonM E (fockM s hfOrb hfE) (mocoreM E nc corth s dmA dmB l))
    (Matrix.fromColumns (canonM E (fockM s hfOrb hfE) (mocasM E nc na corth s dmA dmB l))
      (canonM E (fockM s hfOrb hfE) (moextM E nc na corth s dmA dmB l)))

/-- Trivial eigensolver for witnesses: the identity rotation, which
is orthogonal. -/
def eighOne : Eigh := ⟨fun _ _ _ _ => 1⟩

end MatModel

/-! ## Theorems -/

namespace PyModel


/-! ### Column-count lemmas -/

theorem length_matmul (A B : Mat) : (matmul A B).length = B.length := by
  simp [matmul]

theorem length_selCols (A : Mat) (idxs : List ℕ) :
    (selCols A idxs).length = idxs.length := by
  simp [selCols]

theorem length_subSq (A : Mat) (idxs : List ℕ) :
    (subSq A idxs).length = idxs.length := by
  simp [subSq, selRowsM, selCols]

theorem length_negM (A : Mat) : (negM A).length = A.length := by
  simp [negM]

theorem length_idMat (k : ℕ) : (idMat k).length = k := by
  simp [idMat]

theorem length_pySlice (A : Mat) (a b : ℤ) :
    (pySlice A a b).length
      = min (pyIdx A.length b - pyIdx A.length a) (A.length - pyIdx A.length a) := by
  simp [pySlice]

theorem length_pySliceFrom (A : Mat) (a : ℤ) :
    (pySliceFrom A a).length = A.length - pyIdx A.length a := by
  simp [pySliceFrom]

/-- The order-preserving complement of a duplicate-free list of
indices below `n` has `n - l.length` elements. -/
theorem length_filter_not_mem_range (n : ℕ) (l : List ℕ)
    (hnd : l.Nodup) (hlt : ∀ i ∈ l, i < n) :
    ((List.range n).filter (fun i => ¬ i ∈ l)).length = n - l.length := by
  have hperm : List.Perm ((List.range n).filter (fun i => i ∈ l)) l := by
    refine (List.perm_ext_iff_of_nodup ((List.nodup_range n).filter _) hnd).2 ?_
    intro a
    simp only [List.mem_filter, List.mem_range, decide_eq_true_eq]
    exact ⟨fun h => h.2, fun h => ⟨hlt a h, h⟩⟩
  have hmem : ((List.range n).filter (fun i => i ∈ l)).length = l.length :=
    hperm.length_eq
  have hsplit := List.length_eq_length_filter_add
    (l := List.range n) (fun i => decide (i ∈ l))
  simp only [List.length_range] at hsplit
  have hcongr : (List.range n).filter (fun i => ¬ i ∈ l)
      = (List.range n).filter (fun i => !(decide (i ∈ l))) := by
    simp only [decide_not]
  rw [hcongr]
  omega

/-- `bathorb` has `nao - nimp` columns (for distinct in-range
impurity indices and a shape-preserving eigensolver). -/
theorem length_bathorb (eighA : Mat → Vec × Mat) (gmol : MoleL) (mc : MCL)
    (dm : Mat × Mat) (implst : List ℕ)
    (hsh : ∀ M, ((eighA M).2).length = M.length)
    (hnd : implst.Nodup) (hlt : ∀ i ∈ implst, i < mc.mol.nao) :
    (bathorb eighA gmol mc dm implst).length = mc.mol.nao - implst.length := by
  rw [bathorb, length_matmul, eighBath, hsh, length_negM, length_subSq, notimp,
    length_filter_not_mem_range _ _ hnd hlt]

/-- `imporb` has `nimp` columns. -/
theorem length_imporb (eighA : Mat → Vec × Mat) (gmol : MoleL)
    (dm : Mat × Mat) (implst : List ℕ)
    (hsh : ∀ M, ((eighA M).2).length = M.length) :
    (imporb eighA gmol dm implst).length = implst.length := by
  rw [imporb, length_matmul, eighImp, hsh, length_negM, length_subSq]

theorem pyIdx_natCast (n k : ℕ) : pyIdx n (k : ℤ) = min k n := by
  unfold pyIdx
  rw [if_neg (by omega)]
  simp

theorem pyIdx_zero (n : ℕ) : pyIdx n 0 = 0 := by
  simp [pyIdx]

theorem pySlice_self (A : Mat) (a : ℤ) : pySlice A a a = [] := by
  simp [pySlice]

/-- The trivial eigensolver is shape-preserving (scipy's `eigh`
returns a square eigenvector matrix of its input's size). -/
theorem eighTriv_shape : ∀ M : Mat, ((eighTriv M).2).length = M.length := by
  intro M
  simp [eighTriv, length_idMat]

/-- C1: for every valid input (`ncore + ncas ≤ nao`, `nimp ≤ ncas`,
distinct in-range impurity indices, a shape-preserving eigensolver)
the selector assigns `core = bathorb[:, 0:ncore]`,
`active = concat(imporb, bathorb[:, ncore:ncore+nbath])` with
`nbath = ncas - nimp`, and `external = bathorb[:, ncore+nbath:]`, and
the column counts satisfy
`core.width + active.width + external.width = nao` and
`active.width = ncas`. -/
theorem claim_C1 (eighA : Mat → Vec × Mat) (gmol : MoleL) (mc : MCL)
    (dm : Mat × Mat) (implst : List ℕ)
    (hsh : ∀ M, ((eighA M).2).length = M.length)
    (hnd : implst.Nodup)
    (hlt : ∀ i ∈ implst, i < mc.mol.nao)
    (himp : implst.length ≤ mc.ncas)
    (hsz : mc.ncore + mc.ncas ≤ mc.mol.nao) :
    mocore eighA gmol mc dm implst
        = pySlice (bathorb eighA gmol mc dm implst) 0 (mc.ncore : ℤ) ∧
      nbath mc implst = (mc.ncas : ℤ) - (implst.length : ℤ) ∧
      mocas eighA gmol mc dm implst
        = imporb eighA gmol dm implst ++
            pySlice (bathorb eighA gmol mc dm implst) (mc.ncore : ℤ)
              ((mc.ncore : ℤ) + nbath mc implst) ∧
      moext eighA gmol mc dm implst
        = pySliceFrom (bathorb eighA gmol mc dm implst)
            ((mc.ncore : ℤ) + nbath mc implst) ∧
      (mocore eighA gmol mc dm implst).length
          + (mocas eighA gmol mc dm implst).length
          + (moext eighA gmol mc dm implst).length = mc.mol.nao ∧
      (mocas eighA gmol mc dm implst).length = mc.ncas := by
  have hb := length_bathorb eighA gmol mc dm implst hsh hnd hlt
  have hcast : (mc.ncore : ℤ) + nbath mc implst
      = ((mc.ncore + mc.ncas - implst.length : ℕ) : ℤ) := by
    unfold nbath
    omega
  have hcore : (mocore eighA gmol mc dm implst).length = mc.ncore := by
    rw [mocore, length_pySlice, hb, pyIdx_zero, pyIdx_natCast]
    omega
  have hcas : (mocas eighA gmol mc dm implst).length = mc.ncas := by
    rw [mocas, List.length_append, length_imporb eighA gmol dm implst hsh,
      length_pySlice, hb, hcast, pyIdx_natCast, pyIdx_natCast]
    omega
  have hext : (moext eighA gmol mc dm implst).length
      = mc.mol.nao - mc.ncore - mc.ncas := by
    rw [moext, length_pySliceFrom, hb, hcast, pyIdx_natCast]
    omega
  refine ⟨rfl, rfl, rfl, rfl, ?_, hcas⟩
  rw [hcore, hcas, hext]
  omega

/-- Witness for C1 at a concrete valid input: `nao = 3`, `ncore = 1`,
`ncas = 1`, `implst = [0]`, trivial eigensolver. -/
theorem claim_C1_witness :
    (∀ M, ((eighTriv M).2).length = M.length) ∧
      ([0] : List ℕ).Nodup ∧
      (∀ i ∈ ([0] : List ℕ), i < mc3.mol.nao) ∧
      ([0] : List ℕ).length ≤ mc3.ncas ∧
      mc3.ncore + mc3.ncas ≤ mc3.mol.nao ∧
      ((mocore eighTriv gmol3 mc3 dm3 [0]).length
          + (mocas eighTriv gmol3 mc3 dm3 [0]).length
          + (moext eighTriv gmol3 mc3 dm3 [0]).length = mc3.mol.nao ∧
        (mocas eighTriv gmol3 mc3 dm3 [0]).length = mc3.ncas) :=
  ⟨eighTriv_shape, by decide, by decide, by decide, by decide,
    (claim_C1 eighTriv gmol3 mc3 dm3 [0] eighTriv_shape (by decide)
        (by decide) (by decide) (by decide)).2.2.2.2⟩

/-- C7: when `nimp = ncas` the bath count is zero and the
pre-canonicalization active block is exactly `imporb` (an empty bath
slice is appended). -/
theorem claim_C7 (eighA : Mat → Vec × Mat) (gmol : MoleL) (mc : MCL)
    (dm : Mat × Mat) (implst : List ℕ)
    (h : implst.length = mc.ncas) :
    nbath mc implst = 0 ∧
      mocas eighA gmol mc dm implst = imporb eighA gmol dm implst := by
  have h0 : nbath mc implst = 0 := by
    unfold nbath
    omega
  refine ⟨h0, ?_⟩
  rw [mocas, h0, add_zero, pySlice_self, List.append_nil]

/-- Witness for C7 at a concrete input with `nimp = ncas = 1`. -/
theorem claim_C7_witness :
    ([0] : List ℕ).length = mc3.ncas ∧
      (nbath mc3 [0] = 0 ∧
        mocas eighTriv gmol3 mc3 dm3 [0] = imporb eighTriv gmol3 dm3 [0]) :=
  ⟨by decide, claim_C7 eighTriv gmol3 mc3 dm3 [0] (by decide)⟩

/-- With the explicit arguments (`mc`, `dm`, `implst`) and the
eigensolver fixed, changing only the module-level global `mol`
(here: a different orthogonalizing transform after a mutation)
changes the value `dmet_cas` returns. -/
theorem dmetCas_global_dependence :
    dmetCas eighTriv gmol1 mc1 dm1 [0]
      ≠ dmetCas eighTriv gmol1b mc1 dm1 [0] := by
  simp [dmetCas, canon, fock, mocas, mocore, moext, bathorb, imporb, eighImp,
    eighBath, dmOrth, cinv, notimp, nbath, matmul, transposeM, lincomb, addM,
    negM, subSq, selCols, selRowsM, scaleCols, smulVec, addVec, zeroVec,
    rowsOf, pySlice, pySliceFrom, pyIdx, idMat, eighTriv, gmol1, gmol1b, mc1,
    dm1, List.range_succ, List.range_zero, List.filter_cons, List.filter_nil]

/-- C8 counterexample: at the spec's error scenario (`ncas = 1`,
`impurity_indices = [0, 1]`, so `nbath = -1 < 0`) the selector does
not raise anything — it returns an ordinary matrix, here one with 5
columns. -/
theorem claim_C8_counterexample :
    (dmetCas eighTriv gmol4 mc4 dm4 [0, 1]).length = 5 := by
  decide

/-- C8 as amended: the reference selector performs no validation.
With `ncas = 1` and `impurity_indices = [0, 1]` (`nbath = -1`), it
returns normally: the Python slice `bathorb[:, ncore:ncore+nbath]`
is empty, the active block keeps all `nimp = 2 > ncas = 1` impurity
columns, and the negative bound of `bathorb[:, ncore+nbath:]` makes
the external block re-include core columns, so the returned matrix
has `5 ≠ nao = 4` columns.  No `InvalidPartition` error exists in
the code; the spec prescribes it only for a reimplementation. -/
theorem claim_C8 :
    nbath mc4 [0, 1] = -1 ∧
      mc4.ncas = 1 ∧
      mc4.mol.nao = 4 ∧
      (mocas eighTriv gmol4 mc4 dm4 [0, 1]).length = 2 ∧
      (dmetCas eighTriv gmol4 mc4 dm4 [0, 1]).length = 5 := by
  refine ⟨by decide, by decide, by decide, by decide, ?_⟩
  decide

/-- C6 counterexample: two calls with identical explicit inputs
(`mc`, `dm`, `implst`) and the same eigensolver return different
orbital matrices when the module-level global `mol` differs between
the calls, so the selector is not a pure function of its argument
list. -/
theorem claim_C6_counterexample :
    dmetCas eighTriv gmol1 mc1 dm1 [0]
      ≠ dmetCas eighTriv gmol1b mc1 dm1 [0] :=
  dmetCas_global_dependence

/-- C6 as amended: the selector is deterministic — it contains no
randomness, so two calls with identical explicit inputs AND an
unchanged module-level global `mol` yield identical outputs — but it
is not a pure function of its argument list: its output also depends
on the global `mol` (which the surrounding script mutates). -/
theorem claim_C6 :
    (∀ (eighA : Mat → Vec × Mat) (gmol : MoleL) (mc : MCL)
        (dm : Mat × Mat) (implst : List ℕ),
      dmetCas eighA gmol mc dm implst = dmetCas eighA gmol mc dm implst) ∧
    dmetCas eighTriv gmol1 mc1 dm1 [0]
      ≠ dmetCas eighTriv gmol1b mc1 dm1 [0] :=
  ⟨fun _ _ _ _ _ => rfl, dmetCas_global_dependence⟩

/-- C9: `dmet_cas` computes the orthogonalizing transform and the
overlap matrix from the module-level global `mol` while taking `nao`
from `mc.mol`: the orthogonal-basis density and the Fock matrix are
built from `gmol.orthAo` and `gmol.ovlp`, the complement index list
ranges over `mc.mol.nao`, and — concretely — with `mc` (whose `mol`
field is `gmol1`), `dm` and `implst` held fixed, mutating the global
from `gmol1` to `gmol1b` changes the returned orbitals. -/
theorem claim_C9 :
    (∀ (gmol : MoleL) (mc : MCL) (dm : Mat × Mat) (implst : List ℕ),
      dmOrth gmol dm
          = matmul (matmul (matmul (transposeM gmol.orthAo) gmol.ovlp)
              (addM dm.1 dm.2))
              (transposeM (matmul (transposeM gmol.orthAo) gmol.ovlp)) ∧
        notimp mc implst
          = (List.range mc.mol.nao).filter (fun i => ¬ i ∈ implst) ∧
        fock gmol mc
          = matmul (matmul (matmul gmol.ovlp
              (scaleCols mc.scfMoEnergy mc.scfMoCoeff))
              (transposeM mc.scfMoCoeff)) gmol.ovlp) ∧
    mc1.mol = gmol1 ∧
    dmetCas eighTriv gmol1b mc1 dm1 [0]
      ≠ dmetCas eighTriv gmol1 mc1 dm1 [0] :=
  ⟨fun _ _ _ _ => ⟨rfl, rfl, rfl⟩, rfl, Ne.symm dmetCas_global_dependence⟩

/-- The trivial eigensolver returns its eigenvalues in (weakly)
ascending order, as scipy's `eigh` does. -/
theorem eighTriv_ascending :
    ∀ M : Mat, List.Pairwise (· ≤ ·) (eighTriv M).1 := by
  intro M
  simp only [eighTriv, zeroVec]
  exact List.pairwise_replicate.2 (Or.inr le_rfl)

/-- C2: the selector first forms the spin-free density
`dm_mixed = dm_alpha + dm_beta` and transforms it to the orthogonal
basis as `dm_orth = cinv · dm_mixed · cinvᵀ` with
`cinv = orth_transformᵀ · S`. -/
theorem claim_C2 (gmol : MoleL) (dm : Mat × Mat) :
    cinv gmol = matmul (transposeM gmol.orthAo) gmol.ovlp ∧
      dmOrth gmol dm
        = matmul (matmul (cinv gmol) (addM dm.1 dm.2))
            (transposeM (cinv gmol)) :=
  ⟨rfl, rfl⟩

/-- C3: `[0, nao)` is split into `implst` and its order-preserving
complement `notimp`; the eigensolver is applied to the negated
sub-blocks `-dm_orth[implst, implst]` and `-dm_orth[notimp, notimp]`,
so that with ascending eigenvalues the occupations (their negatives)
are descending within each block; `imporb` and `bathorb` are the
corresponding rotations of the impurity and complement columns of the
orthogonalizing transform. -/
theorem claim_C3 (eighA : Mat → Vec × Mat) (gmol : MoleL) (mc : MCL)
    (dm : Mat × Mat) (implst : List ℕ)
    (hasc : ∀ M, List.Pairwise (· ≤ ·) (eighA M).1) :
    (∀ i, i < mc.mol.nao → i ∈ implst ∨ i ∈ notimp mc implst) ∧
      (∀ i ∈ notimp mc implst, ¬ i ∈ implst ∧ i < mc.mol.nao) ∧
      List.Pairwise (· < ·) (notimp mc implst) ∧
      eighImp eighA gmol dm implst
        = eighA (negM (subSq (dmOrth gmol dm) implst)) ∧
      eighBath eighA gmol mc dm implst
        = eighA (negM (subSq (dmOrth gmol dm) (notimp mc implst))) ∧
      imporb eighA gmol dm implst
        = matmul (selCols gmol.orthAo implst) (eighImp eighA gmol dm implst).2 ∧
      bathorb eighA gmol mc dm implst
        = matmul (selCols gmol.orthAo (notimp mc implst))
            (eighBath eighA gmol mc dm implst).2 ∧
      List.Pairwise (· ≥ ·)
        (((eighImp eighA gmol dm implst).1).map (fun x => -x)) ∧
      List.Pairwise (· ≥ ·)
        (((eighBath eighA gmol mc dm implst).1).map (fun x => -x)) := by
  refine ⟨?_, ?_, ?_, rfl, rfl, rfl, rfl, ?_, ?_⟩
  · intro i hi
    by_cases h : i ∈ implst
    · exact Or.inl h
    · refine Or.inr ?_
      simp [notimp, List.mem_filter, List.mem_range, hi, h]
  · intro i hi
    simp only [notimp, List.mem_filter, List.mem_range, decide_not,
      Bool.not_eq_eq_eq_not, Bool.not_true, decide_eq_false_iff_not] at hi
    exact ⟨hi.2, hi.1⟩
  · exact (List.pairwise_lt_range mc.mol.nao).sublist (List.filter_sublist _)
  · exact List.pairwise_map.2
      ((hasc _).imp fun hab => neg_le_neg hab)
  · exact List.pairwise_map.2
      ((hasc _).imp fun hab => neg_le_neg hab)

/-- Witness for C3 at a concrete input with the (ascending) trivial
eigensolver. -/
theorem claim_C3_witness :
    (∀ M, List.Pairwise (· ≤ ·) (eighTriv M).1) ∧
      (∀ i, i < mc3.mol.nao → i ∈ ([0] : List ℕ) ∨ i ∈ notimp mc3 [0]) ∧
      List.Pairwise (· ≥ ·)
        (((eighImp eighTriv gmol3 dm3 [0]).1).map (fun x => -x)) :=
  ⟨eighTriv_ascending,
    (claim_C3 eighTriv gmol3 mc3 dm3 [0] eighTriv_ascending).1,
    (claim_C3 eighTriv gmol3 mc3 dm3 [0] eighTriv_ascending).2.2.2.2.2.2.2.1⟩

/-- C4: the Fock matrix is reconstructed as
`S · (hf_coeff * hf_energy) · hf_coeffᵀ · S`; each block `B` of
{core, active, external} is independently replaced by `B` rotated by
the eigenvectors of `Bᵀ · Fock · B`; the returned matrix is the
column concatenation of the three canonicalized blocks in the order
core, active, external. -/
theorem claim_C4 (eighA : Mat → Vec × Mat) (gmol : MoleL) (mc : MCL)
    (dm : Mat × Mat) (implst : List ℕ) :
    fock gmol mc
        = matmul (matmul (matmul gmol.ovlp
            (scaleCols mc.scfMoEnergy mc.scfMoCoeff))
            (transposeM mc.scfMoCoeff)) gmol.ovlp ∧
      (∀ fk B : Mat, canon eighA fk B
        = matmul B (eighA (matmul (matmul (transposeM B) fk) B)).2) ∧
      dmetCas eighA gmol mc dm implst
        = canon eighA (fock gmol mc) (mocore eighA gmol mc dm implst) ++
            canon eighA (fock gmol mc) (mocas eighA gmol mc dm implst) ++
              canon eighA (fock gmol mc) (moext eighA gmol mc dm implst) :=
  ⟨rfl, fun _ _ => rfl, rfl⟩

end PyModel

namespace Script

/-- C10: the names `idx3d` and `m` are never bound by any statement
of the script; the triplet `dmet_cas` call (index 33, line 197)
references `idx3d` and the triplet `DMRGSCF` construction (index 31,
line 194, before it) references `m`, and both fail even under the
most generous environment containing every name the script ever
binds — so executing the triplet branch raises a name-resolution
error before any selector computation.  Running the script from the
top already fails at index 20 (line 156, the quintet `DMRGSCF(m,...)`
call). -/
theorem claim_C10 :
    ¬ "idx3d" ∈ boundNames ∧
      ¬ "m" ∈ boundNames ∧
      "idx3d" ∈ (script.getD 33 noStmt).refs ∧
      "m" ∈ (script.getD 31 noStmt).refs ∧
      stmtFails boundNames (script.getD 31 noStmt) = true ∧
      stmtFails boundNames (script.getD 33 noStmt) = true ∧
      execFail [] script = some 20 := by
  decide


end Script

namespace MatModel

open Matrix


theorem notimpM_nodup (n : ℕ) (l : List (Fin n)) : (notimpM n l).Nodup :=
  (List.nodup_finRange n).filter _

theorem notimpM_not_mem {n : ℕ} {l : List (Fin n)} {x : Fin n}
    (hx : x ∈ notimpM n l) : ¬ x ∈ l := by
  have h := List.mem_filter.1 hx
  simpa using h.2

/-- The complement list of a duplicate-free index list has
`n - l.length` entries. -/
theorem notimpM_length (n : ℕ) (l : List (Fin n)) (hnd : l.Nodup) :
    (notimpM n l).length = n - l.length := by
  have hperm : List.Perm ((List.finRange n).filter (fun i => i ∈ l)) l := by
    refine (List.perm_ext_iff_of_nodup ((List.nodup_finRange n).filter _) hnd).2 ?_
    intro a
    simp [List.mem_filter]
  have hmem := hperm.length_eq
  have hsplit := List.length_eq_length_filter_add
    (l := List.finRange n) (fun i => decide (i ∈ l))
  have hcongr : notimpM n l
      = (List.finRange n).filter (fun i => !(decide (i ∈ l))) := by
    simp only [notimpM, decide_not]
  rw [hcongr]
  simp only [List.length_finRange] at hsplit
  omega

theorem mul_subcols {n : ℕ} {κ m₂ κ₂ : Type} (A : Matrix κ (Fin n) ℚ)
    (Q : Matrix (Fin n) m₂ ℚ) (g : κ₂ → m₂) :
    A * Q.submatrix id g = (A * Q).submatrix id g := by
  ext i j
  simp [Matrix.mul_apply]

theorem subcols_transpose_mul {n : ℕ} {m₁ κ₁ κ : Type}
    (P : Matrix (Fin n) m₁ ℚ) (A : Matrix (Fin n) κ ℚ) (f : κ₁ → m₁) :
    (P.submatrix id f)ᵀ * A = (Pᵀ * A).submatrix f id := by
  ext i j
  simp [Matrix.mul_apply]

theorem subrows_mul {n : ℕ} {m₁ κ₁ m₂ : Type} (A : Matrix m₁ (Fin n) ℚ)
    (B : Matrix (Fin n) m₂ ℚ) (f : κ₁ → m₁) :
    A.submatrix f id * B = (A * B).submatrix f id := by
  ext i j
  simp [Matrix.mul_apply]

/-- Gram matrix of two column selections is the corresponding
submatrix of the full Gram matrix. -/
theorem gram_subcols {n : ℕ} {m₁ m₂ κ₁ κ₂ : Type}
    (s : Matrix (Fin n) (Fin n) ℚ) (P : Matrix (Fin n) m₁ ℚ)
    (Q : Matrix (Fin n) m₂ ℚ) (f : κ₁ → m₁) (g : κ₂ → m₂) :
    (P.submatrix id f)ᵀ * s * Q.submatrix id g
      = (Pᵀ * s * Q).submatrix f g := by
  rw [subcols_transpose_mul, subrows_mul, mul_subcols]
  rfl

theorem one_submatrix_inj {n : ℕ} {κ : Type} [DecidableEq κ]
    {f : κ → Fin n} (hf : Function.Injective f) :
    (1 : Matrix (Fin n) (Fin n) ℚ).submatrix f f = 1 := by
  ext i j
  simp [Matrix.one_apply, hf.eq_iff]

theorem one_submatrix_disj {n : ℕ} {κ₁ κ₂ : Type} {f : κ₁ → Fin n}
    {g : κ₂ → Fin n} (h : ∀ i j, f i ≠ g j) :
    (1 : Matrix (Fin n) (Fin n) ℚ).submatrix f g = 0 := by
  ext i j
  simp [Matrix.one_apply, h i j]

/-- In the valid regime a contiguous slice is a column selection
along an offset embedding. -/
theorem colSlice_eq_submatrix {n m k : ℕ} (Q : Matrix (Fin n) (Fin m) ℚ)
    (b : ℕ) (hbk : b + k ≤ m) :
    colSlice Q b k
      = Q.submatrix id (fun j : Fin k => ⟨b + (j : ℕ), by omega⟩) := by
  ext i j
  have hj : b + (j : ℕ) < m := by omega
  simp [colSlice, dif_pos hj]

/-- Rotating two orthonormal families and taking their Gram matrix
conjugates the original Gram matrix by the rotations. -/
theorem rotate_gram {n : ℕ} {κ₁ κ₂ ι₁ ι₂ : Type} [Fintype κ₁] [Fintype κ₂]
    (s : Matrix (Fin n) (Fin n) ℚ) (B : Matrix (Fin n) κ₁ ℚ)
    (C : Matrix (Fin n) κ₂ ℚ) (u : Matrix κ₁ ι₁ ℚ) (v : Matrix κ₂ ι₂ ℚ) :
    (B * u)ᵀ * s * (C * v) = uᵀ * (Bᵀ * s * C) * v := by
  rw [Matrix.transpose_mul]
  simp only [Matrix.mul_assoc]

/-- C5: on a valid input (distinct impurity indices, `nimp ≤ ncas`,
`ncore + ncas ≤ nao`) with an S-orthonormal orthogonalizing transform
(`corthᵀ · S · corth = 1`) and an eigensolver whose eigenvector
matrices are orthogonal, the orbital matrix returned by the selector
is S-orthonormal: `moInitᵀ · S · moInit = 1`. -/
theorem claim_C5 (E : Eigh) {n : ℕ} (nc na : ℕ)
    (corth s dmA dmB hfOrb : Matrix (Fin n) (Fin n) ℚ) (hfE : Fin n → ℚ)
    (l : List (Fin n))
    (hE : ∀ (m : Type) [Fintype m] [DecidableEq m] (M : Matrix m m ℚ),
      (E.vecs m M)ᵀ * E.vecs m M = 1)
    (hortho : corthᵀ * s * corth = 1)
    (hnd : l.Nodup) (h1 : l.length ≤ na) (h2 : nc + na ≤ n) :
    (moInitM E nc na corth s dmA dmB hfOrb hfE l)ᵀ * s
        * moInitM E nc na corth s dmA dmB hfOrb hfE l = 1 := by
  have hlen := notimpM_length n l hnd
  have hb1 : 0 + nc ≤ (notimpM n l).length := by omega
  have hb2 : nc + (na - l.length) ≤ (notimpM n l).length := by omega
  have hb3 : (nc + (na - l.length))
      + ((notimpM n l).length - (nc + (na - l.length)))
      ≤ (notimpM n l).length := by omega
  have hgetl : Function.Injective l.get := List.nodup_iff_injective_get.1 hnd
  have hgetn : Function.Injective (notimpM n l).get :=
    List.nodup_iff_injective_get.1 (notimpM_nodup n l)
  have hdisj : ∀ (i : Fin l.length) (j : Fin (notimpM n l).length),
      l.get i ≠ (notimpM n l).get j := by
    intro i j he
    have hmem1 : l.get i ∈ l := List.get_mem l i.1 i.2
    have hmem2 : (notimpM n l).get j ∈ notimpM n l :=
      List.get_mem (notimpM n l) j.1 j.2
    exact notimpM_not_mem hmem2 (he ▸ hmem1)
  have gImp : (corth.submatrix id l.get)ᵀ * s * corth.submatrix id l.get = 1 := by
    rw [gram_subcols, hortho, one_submatrix_inj hgetl]
  have gBath : (corth.submatrix id (notimpM n l).get)ᵀ * s
      * corth.submatrix id (notimpM n l).get = 1 := by
    rw [gram_subcols, hortho, one_submatrix_inj hgetn]
  have gIB : (corth.submatrix id l.get)ᵀ * s
      * corth.submatrix id (notimpM n l).get = 0 := by
    rw [gram_subcols, hortho, one_submatrix_disj hdisj]
  have gBI : (corth.submatrix id (notimpM n l).get)ᵀ * s
      * corth.submatrix id l.get = 0 := by
    rw [gram_subcols, hortho,
      one_submatrix_disj (fun i j he => hdisj j i he.symm)]
  have GB : (bathorbM E corth s dmA dmB l)ᵀ * s
      * bathorbM E corth s dmA dmB l = 1 := by
    rw [bathorbM, rotate_gram, gBath, Matrix.mul_one]
    exact hE _ _
  have GI : (imporbM E corth s dmA dmB l)ᵀ * s
      * imporbM E corth s dmA dmB l = 1 := by
    rw [imporbM, rotate_gram, gImp, Matrix.mul_one]
    exact hE _ _
  have GIB : (imporbM E corth s dmA dmB l)ᵀ * s
      * bathorbM E corth s dmA dmB l = 0 := by
    rw [imporbM, bathorbM, rotate_gram, gIB, Matrix.mul_zero,
      Matrix.zero_mul]
  have GBI : (bathorbM E corth s dmA dmB l)ᵀ * s
      * imporbM E corth s dmA dmB l = 0 := by
    rw [bathorbM, imporbM, rotate_gram, gBI, Matrix.mul_zero,
      Matrix.zero_mul]
  -- Gram facts among the three pre-canonical slices of `bathorb`
  -- and `imporb`.
  have S11 : (colSlice (bathorbM E corth s dmA dmB l) 0 nc)ᵀ * s
      * colSlice (bathorbM E corth s dmA dmB l) 0 nc = 1 := by
    rw [colSlice_eq_submatrix _ _ hb1, gram_subcols, GB]
    apply one_submatrix_inj
    intro i j he
    simp only [Fin.mk.injEq] at he
    exact Fin.ext (by omega)
  have S22 : (colSlice (bathorbM E corth s dmA dmB l) nc (na - l.length))ᵀ * s
      * colSlice (bathorbM E corth s dmA dmB l) nc (na - l.length) = 1 := by
    rw [colSlice_eq_submatrix _ _ hb2, gram_subcols, GB]
    apply one_submatrix_inj
    intro i j he
    simp only [Fin.mk.injEq] at he
    exact Fin.ext (by omega)
  have S33 : (colSlice (bathorbM E corth s dmA dmB l) (nc + (na - l.length))
        ((notimpM n l).length - (nc + (na - l.length))))ᵀ * s
      * colSlice (bathorbM E corth s dmA dmB l) (nc + (na - l.length))
        ((notimpM n l).length - (nc + (na - l.length))) = 1 := by
    rw [colSlice_eq_submatrix _ _ hb3, gram_subcols, GB]
    apply one_submatrix_inj
    intro i j he
    simp only [Fin.mk.injEq] at he
    exact Fin.ext (by omega)
  have S12 : (colSlice (bathorbM E corth s dmA dmB l) 0 nc)ᵀ * s
      * colSlice (bathorbM E corth s dmA dmB l) nc (na - l.length) = 0 := by
    rw [colSlice_eq_submatrix _ _ hb1, colSlice_eq_submatrix _ _ hb2,
      gram_subcols, GB]
    apply one_submatrix_disj
    intro i j he
    have hi := i.isLt
    simp only [Fin.mk.injEq] at he
    omega
  have S13 : (colSlice (bathorbM E corth s dmA dmB l) 0 nc)ᵀ * s
      * colSlice (bathorbM E corth s dmA dmB l) (nc + (na - l.length))
        ((notimpM n l).length - (nc + (na - l.length))) = 0 := by
    rw [colSlice_eq_submatrix _ _ hb1, colSlice_eq_submatrix _ _ hb3,
      gram_subcols, GB]
    apply one_submatrix_disj
    intro i j he
    have hi := i.isLt
    simp only [Fin.mk.injEq] at he
    omega
  have S21 : (colSlice (bathorbM E corth s dmA dmB l) nc (na - l.length))ᵀ * s
      * colSlice (bathorbM E corth s dmA dmB l) 0 nc = 0 := by
    rw [colSlice_eq_submatrix _ _ hb2, colSlice_eq_submatrix _ _ hb1,
      gram_subcols, GB]
    apply one_submatrix_disj
    intro i j he
    have hj := j.isLt
    simp only [Fin.mk.injEq] at he
    omega
  have S23 : (colSlice (bathorbM E corth s dmA dmB l) nc (na - l.length))ᵀ * s
      * colSlice (bathorbM E corth s dmA dmB l) (nc + (na - l.length))
        ((notimpM n l).length - (nc + (na - l.length))) = 0 := by
    rw [colSlice_eq_submatrix _ _ hb2, colSlice_eq_submatrix _ _ hb3,
      gram_subcols, GB]
    apply one_submatrix_disj
    intro i j he
    have hi := i.isLt
    simp only [Fin.mk.injEq] at he
    omega
  have S31 : (colSlice (bathorbM E corth s dmA dmB l) (nc + (na - l.length))
        ((notimpM n l).length - (nc + (na - l.length))))ᵀ * s
      * colSlice (bathorbM E corth s dmA dmB l) 0 nc = 0 := by
    rw [colSlice_eq_submatrix _ _ hb3, colSlice_eq_submatrix _ _ hb1,
      gram_subcols, GB]
    apply one_submatrix_disj
    intro i j he
    have hj := j.isLt
    simp only [Fin.mk.injEq] at he
    omega
  have S32 : (colSlice (bathorbM E corth s dmA dmB l) (nc + (na - l.length))
        ((notimpM n l).length - (nc + (na - l.length))))ᵀ * s
      * colSlice (bathorbM E corth s dmA dmB l) nc (na - l.length) = 0 := by
    rw [colSlice_eq_submatrix _ _ hb3, colSlice_eq_submatrix _ _ hb2,
      gram_subcols, GB]
    apply one_submatrix_disj
    intro i j he
    have hj := j.isLt
    simp only [Fin.mk.injEq] at he
    omega
  have I1 : (imporbM E corth s dmA dmB l)ᵀ * s
      * colSlice (bathorbM E corth s dmA dmB l) 0 nc = 0 := by
    rw [colSlice_eq_submatrix _ _ hb1, mul_subcols, GIB]
    simp
  have I2 : (imporbM E corth s dmA dmB l)ᵀ * s
      * colSlice (bathorbM E corth s dmA dmB l) nc (na - l.length) = 0 := by
    rw [colSlice_eq_submatrix _ _ hb2, mul_subcols, GIB]
    simp
  have I3 : (imporbM E corth s dmA dmB l)ᵀ * s
      * colSlice (bathorbM E corth s dmA dmB l) (nc + (na - l.length))
        ((notimpM n l).length - (nc + (na - l.length))) = 0 := by
    rw [colSlice_eq_submatrix _ _ hb3, mul_subcols, GIB]
    simp
  have R1 : (colSlice (bathorbM E corth s dmA dmB l) 0 nc)ᵀ * s
      * imporbM E corth s dmA dmB l = 0 := by
    rw [colSlice_eq_submatrix _ _ hb1, subcols_transpose_mul, subrows_mul,
      GBI]
    simp
  have R2 : (colSlice (bathorbM E corth s dmA dmB l) nc (na - l.length))ᵀ * s
      * imporbM E corth s dmA dmB l = 0 := by
    rw [colSlice_eq_submatrix _ _ hb2, subcols_transpose_mul, subrows_mul,
      GBI]
    simp
  have R3 : (colSlice (bathorbM E corth s dmA dmB l) (nc + (na - l.length))
        ((notimpM n l).length - (nc + (na - l.length))))ᵀ * s
      * imporbM E corth s dmA dmB l = 0 := by
    rw [colSlice_eq_submatrix _ _ hb3, subcols_transpose_mul, subrows_mul,
      GBI]
    simp
  -- Gram facts for the three assigned blocks.
  have gCC : (mocoreM E nc corth s dmA dmB l)ᵀ * s
      * mocoreM E nc corth s dmA dmB l = 1 := S11
  have gAA : (mocasM E nc na corth s dmA dmB l)ᵀ * s
      * mocasM E nc na corth s dmA dmB l = 1 := by
    rw [mocasM, Matrix.transpose_fromColumns, Matrix.fromRows_mul,
      Matrix.fromRows_mul_fromColumns, GI, I2, R2, S22]
    exact Matrix.fromBlocks_one
  have gEE : (moextM E nc na corth s dmA dmB l)ᵀ * s
      * moextM E nc na corth s dmA dmB l = 1 := S33
  have gCA : (mocoreM E nc corth s dmA dmB l)ᵀ * s
      * mocasM E nc na corth s dmA dmB l = 0 := by
    rw [mocoreM, mocasM, Matrix.mul_fromColumns, R1, S12,
      Matrix.fromColumns_zero]
  have gAC : (mocasM E nc na corth s dmA dmB l)ᵀ * s
      * mocoreM E nc corth s dmA dmB l = 0 := by
    rw [mocasM, mocoreM, Matrix.transpose_fromColumns, Matrix.fromRows_mul,
      Matrix.fromRows_mul, I1, S21, Matrix.fromRows_zero]
  have gCE : (mocoreM E nc corth s dmA dmB l)ᵀ * s
      * moextM E nc na corth s dmA dmB l = 0 := S13
  have gEC : (moextM E nc na corth s dmA dmB l)ᵀ * s
      * mocoreM E nc corth s dmA dmB l = 0 := S31
  have gAE : (mocasM E nc na corth s dmA dmB l)ᵀ * s
      * moextM E nc na corth s dmA dmB l = 0 := by
    rw [mocasM, moextM, Matrix.transpose_fromColumns, Matrix.fromRows_mul,
      Matrix.fromRows_mul, I3, S23, Matrix.fromRows_zero]
  have gEA : (moextM E nc na corth s dmA dmB l)ᵀ * s
      * mocasM E nc na corth s dmA dmB l = 0 := by
    rw [moextM, mocasM, Matrix.mul_fromColumns, R3, S32,
      Matrix.fromColumns_zero]
  -- Canonicalization preserves all nine Gram facts.
  have cCC : (canonM E (fockM s hfOrb hfE) (mocoreM E nc corth s dmA dmB l))ᵀ * s
      * canonM E (fockM s hfOrb hfE) (mocoreM E nc corth s dmA dmB l) = 1 := by
    rw [canonM, rotate_gram, gCC, Matrix.mul_one]
    exact hE _ _
  have cAA : (canonM E (fockM s hfOrb hfE) (mocasM E nc na corth s dmA dmB l))ᵀ * s
      * canonM E (fockM s hfOrb hfE) (mocasM E nc na corth s dmA dmB l) = 1 := by
    rw [canonM, rotate_gram, gAA, Matrix.mul_one]
    exact hE _ _
  have cEE : (canonM E (fockM s hfOrb hfE) (moextM E nc na corth s dmA dmB l))ᵀ * s
      * canonM E (fockM s hfOrb hfE) (moextM E nc na corth s dmA dmB l) = 1 := by
    rw [canonM, rotate_gram, gEE, Matrix.mul_one]
    exact hE _ _
  have cCA : (canonM E (fockM s hfOrb hfE) (mocoreM E nc corth s dmA dmB l))ᵀ * s
      * canonM E (fockM s hfOrb hfE) (mocasM E nc na corth s dmA dmB l) = 0 := by
    rw [canonM, canonM, rotate_gram, gCA, Matrix.mul_zero, Matrix.zero_mul]
  have cAC : (canonM E (fockM s hfOrb hfE) (mocasM E nc na corth s dmA dmB l))ᵀ * s
      * canonM E (fockM s hfOrb hfE) (mocoreM E nc corth s dmA dmB l) = 0 := by
    rw [canonM, canonM, rotate_gram, gAC, Matrix.mul_zero, Matrix.zero_mul]
  have cCE : (canonM E (fockM s hfOrb hfE) (mocoreM E nc corth s dmA dmB l))ᵀ * s
      * canonM E (fockM s hfOrb hfE) (moextM E nc na corth s dmA dmB l) = 0 := by
    rw [canonM, canonM, rotate_gram, gCE, Matrix.mul_zero, Matrix.zero_mul]
  have cEC : (canonM E (fockM s hfOrb hfE) (moextM E nc na corth s dmA dmB l))ᵀ * s
      * canonM E (fockM s hfOrb hfE) (mocoreM E nc corth s dmA dmB l) = 0 := by
    rw [canonM, canonM, rotate_gram, gEC, Matrix.mul_zero, Matrix.zero_mul]
  have cAE : (canonM E (fockM s hfOrb hfE) (mocasM E nc na corth s dmA dmB l))ᵀ * s
      * canonM E (fockM s hfOrb hfE) (moextM E nc na corth s dmA dmB l) = 0 := by
    rw [canonM, canonM, rotate_gram, gAE, Matrix.mul_zero, Matrix.zero_mul]
  have cEA : (canonM E (fockM s hfOrb hfE) (moextM E nc na corth s dmA dmB l))ᵀ * s
      * canonM E (fockM s hfOrb hfE) (mocasM E nc na corth s dmA dmB l) = 0 := by
    rw [canonM, canonM, rotate_gram, gEA, Matrix.mul_zero, Matrix.zero_mul]
  -- Assemble the block matrix.
  have hXW : (canonM E (fockM s hfOrb hfE) (mocoreM E nc corth s dmA dmB l))ᵀ * s
      * Matrix.fromColumns
          (canonM E (fockM s hfOrb hfE) (mocasM E nc na corth s dmA dmB l))
          (canonM E (fockM s hfOrb hfE) (moextM E nc na corth s dmA dmB l)) = 0 := by
    rw [Matrix.mul_fromColumns, cCA, cCE, Matrix.fromColumns_zero]
  have hWX : (Matrix.fromColumns
        (canonM E (fockM s hfOrb hfE) (mocasM E nc na corth s dmA dmB l))
        (canonM E (fockM s hfOrb hfE) (moextM E nc na corth s dmA dmB l)))ᵀ * s
      * canonM E (fockM s hfOrb hfE) (mocoreM E nc corth s dmA dmB l) = 0 := by
    rw [Matrix.transpose_fromColumns, Matrix.fromRows_mul, Matrix.fromRows_mul,
      cAC, cEC, Matrix.fromRows_zero]
  have hWW : (Matrix.fromColumns
        (canonM E (fockM s hfOrb hfE) (mocasM E nc na corth s dmA dmB l))
        (canonM E (fockM s hfOrb hfE) (moextM E nc na corth s dmA dmB l)))ᵀ * s
      * Matrix.fromColumns
          (canonM E (fockM s hfOrb hfE) (mocasM E nc na corth s dmA dmB l))
          (canonM E (fockM s hfOrb hfE) (moextM E nc na corth s dmA dmB l)) = 1 := by
    rw [Matrix.transpose_fromColumns, Matrix.fromRows_mul,
      Matrix.fromRows_mul_fromColumns, cAA, cAE, cEA, cEE]
    exact Matrix.fromBlocks_one
  rw [moInitM, Matrix.transpose_fromColumns, Matrix.fromRows_mul,
    Matrix.fromRows_mul_fromColumns, cCC, hXW, hWX, hWW]
  exact Matrix.fromBlocks_one

/-- Witness for C5 at a concrete valid input: `nao = 2`, `ncore = 1`,
`ncas = 1`, `implst = [0]`, identity overlap and transform, identity
eigensolver. -/
theorem claim_C5_witness :
    (∀ (m : Type) [Fintype m] [DecidableEq m] (M : Matrix m m ℚ),
        (eighOne.vecs m M)ᵀ * eighOne.vecs m M = 1) ∧
      ((1 : Matrix (Fin 2) (Fin 2) ℚ)ᵀ * (1 : Matrix (Fin 2) (Fin 2) ℚ)
          * (1 : Matrix (Fin 2) (Fin 2) ℚ) = 1) ∧
      ([(0 : Fin 2)]).Nodup ∧
      ([(0 : Fin 2)]).length ≤ 1 ∧
      1 + 1 ≤ 2 ∧
      (moInitM eighOne 1 1 (1 : Matrix (Fin 2) (Fin 2) ℚ)
            (1 : Matrix (Fin 2) (Fin 2) ℚ) 0 0 0 (fun _ => 0) [0])ᵀ
          * (1 : Matrix (Fin 2) (Fin 2) ℚ)
          * moInitM eighOne 1 1 (1 : Matrix (Fin 2) (Fin 2) ℚ)
            (1 : Matrix (Fin 2) (Fin 2) ℚ) 0 0 0 (fun _ => 0) [0] = 1 :=
  ⟨fun m _ _ M => by simp [eighOne], by simp, by decide, by decide, by decide,
    claim_C5 eighOne 1 1 (1 : Matrix (Fin 2) (Fin 2) ℚ)
      (1 : Matrix (Fin 2) (Fin 2) ℚ) 0 0 0 (fun _ => 0) [0]
      (fun m _ _ M => by simp [eighOne]) (by simp) (by decide) (by decide)
      (by decide)⟩


end MatModel
